import Mathlib

/-!
# Verification of the rings-node Chord-style ring core

This development embeds the data model and operations of the rings-node
repository's DHT core (identifier space, PeerRing with its SuccessorList and
Predecessor, the stabilization round) together with the small pieces of code
that are present verbatim in the repository sources (the snark circuit input
helpers, the storage module's backend selection, and the TCP reverse-proxy
message handler), and proves the specification's testable properties about
them.

The ring core itself (`PeerRing`, `Chord`, `Stabilization` in the `dht`
module) is exercised by the repository's test file
`core/src/tests/default/test_stabilization.rs` but its implementation is not
among the provided sources; those operations are therefore modelled from the
specification's own description (§3, §4.1–§4.3 of the spec), and each such
definition carries a doc comment saying so.
-/

/-! ## Identifier space (§4.1) -/

/-- Modelled from the spec: the identifier space is a fixed-width 160-bit
cyclic address space; `ringSize = 2^160` is its size. The `dht::Did` type
itself is not among the provided sources. -/
def ringSize : Nat := 2 ^ 160

/-- Modelled from the spec: `distance(a, b) -> magnitude`, the clockwise
distance from `a` to `b`, always non-negative, wrapping modulo the space
size: `ringDist(a, b) = (b - a) mod 2^160`. Identifiers are 160-bit, i.e. values
below `ringSize`; the `% ringSize` on `a` makes the function total on `Nat`. -/
def ringDist (a b : Nat) : Nat := (b + ringSize - a % ringSize) % ringSize

/-- Modelled from the spec: `between(start, target, end)` is true iff
`target` lies strictly within the open clockwise arc `(start, end)`. -/
def between (a x b : Nat) : Prop := 0 < ringDist a x ∧ ringDist a x < ringDist a b

instance (a x b : Nat) : Decidable (between a x b) := by
  unfold between; infer_instance

/-- Closed form of `ringDist` for in-range identifiers. -/
theorem ringDist_eq_of_lt {a b : Nat} (ha : a < ringSize) (hb : b < ringSize) :
    ringDist a b = if a ≤ b then b - a else b + ringSize - a := by
  have hR : 0 < ringSize := by simp [ringSize]
  unfold ringDist
  rw [Nat.mod_eq_of_lt ha]
  rcases Nat.le_total a b with h | h
  · rw [if_pos h]
    have h1 : b + ringSize - a = (b - a) + ringSize := by omega
    rw [h1, Nat.add_mod_right, Nat.mod_eq_of_lt (by omega)]
  · by_cases hab : a ≤ b
    · rw [if_pos hab]
      have h1 : b + ringSize - a = (b - a) + ringSize := by omega
      rw [h1, Nat.add_mod_right, Nat.mod_eq_of_lt (by omega)]
    · rw [if_neg hab]
      exact Nat.mod_eq_of_lt (by omega)

theorem ringDist_lt_ringSize (a b : Nat) : ringDist a b < ringSize := by
  have hR : 0 < ringSize := by simp [ringSize]
  exact Nat.mod_lt _ hR

theorem ringDist_self {a : Nat} (ha : a < ringSize) : ringDist a a = 0 := by
  rw [ringDist_eq_of_lt ha ha]; simp

theorem ringDist_pos_of_ne {a b : Nat} (ha : a < ringSize) (hb : b < ringSize)
    (h : a ≠ b) : 0 < ringDist a b := by
  rw [ringDist_eq_of_lt ha hb]; split <;> omega

theorem ringDist_inj {a x y : Nat} (ha : a < ringSize) (hx : x < ringSize)
    (hy : y < ringSize) (h : ringDist a x = ringDist a y) : x = y := by
  rw [ringDist_eq_of_lt ha hx, ringDist_eq_of_lt ha hy] at h
  split at h <;> split at h <;> omega

/-! ## PeerRing state (§3) -/

/-- Modelled from the spec: the Ring owns a local identifier `did`, a bounded
ordered SuccessorList `successors` with capacity `k`, and an optional
Predecessor `predecessor`. The Storage handle plays no role in the ring
algebra and is omitted. The `dht::PeerRing` struct is not among the provided
sources. -/
structure PeerRing where
  did : Nat
  k : Nat
  successors : List Nat
  predecessor : Option Nat
deriving Repr, DecidableEq

/-- The successor-list ordering relation: ascending ring distance from the
local identifier `a`. -/
def ringDistLe (a x y : Nat) : Prop := ringDist a x ≤ ringDist a y

instance (a x y : Nat) : Decidable (ringDistLe a x y) := by
  unfold ringDistLe; infer_instance

instance (a : Nat) : IsTotal Nat (ringDistLe a) :=
  ⟨fun x y => Nat.le_total (ringDist a x) (ringDist a y)⟩

instance (a : Nat) : IsTrans Nat (ringDistLe a) :=
  ⟨fun _ _ _ hxy hyz => Nat.le_trans hxy hyz⟩

/-- Modelled from the spec: `join(candidate)` inserts `candidate` into the
successor-list candidate pool, re-sorts by ascending ring distance from the
local identifier, and truncates to capacity `k`; self-insertion is rejected
(§7: attempted self-insertion is a defensive error causing no mutation), and
an already-present candidate leaves the list unchanged (no duplicates).
`dht::PeerRing::join` is not among the provided sources. -/
def PeerRing.join (r : PeerRing) (c : Nat) : PeerRing :=
  if c = r.did ∨ c ∈ r.successors then r
  else { r with successors := (List.insertionSort (ringDistLe r.did) (c :: r.successors)).take r.k }

/-- Modelled from the spec: `remove(peer)` evicts `peer` from the
SuccessorList if present and clears the Predecessor if it equals `peer`.
`dht::PeerRing::remove` is not among the provided sources. -/
def PeerRing.remove (r : PeerRing) (p : Nat) : PeerRing :=
  { r with
    successors := r.successors.erase p
    predecessor := if r.predecessor = some p then none else r.predecessor }

/-- Modelled from the spec: `notify(candidate)` replaces the current
Predecessor if `candidate` is strictly closer in the predecessor
(counter-clockwise) direction than the existing predecessor — i.e. the
clockwise distance from `candidate` to the local identifier is strictly
smaller — or if none is set; it is a no-op otherwise.
`dht::PeerRing::notify` is not among the provided sources. -/
def PeerRing.notify (r : PeerRing) (c : Nat) : PeerRing :=
  match r.predecessor with
  | none => { r with predecessor := some c }
  | some p => if ringDist c r.did < ringDist p r.did then { r with predecessor := some c } else r

/-- Result of `find_successor`. -/
inductive RingLookup where
  | Local : RingLookup
  | Remote : Nat → RingLookup
deriving Repr, DecidableEq

/-- Modelled from the spec: `find_successor(key)` returns `Local` when the
key falls in the arc between the local id and the first successor, inclusive
of the successor boundary; otherwise `Remote` of the farthest successor-list
entry that does not overshoot `key`, falling back to the nearest successor if
none qualifies. On an empty successor list the node knows no peer and is
trivially responsible. `dht::PeerRing::find_successor` is not among the
provided sources. -/
def PeerRing.find_successor (r : PeerRing) (key : Nat) : RingLookup :=
  match r.successors with
  | [] => RingLookup.Local
  | b :: rest =>
    if between r.did key b ∨ key = b then RingLookup.Local
    else
      RingLookup.Remote
        ((((b :: rest).filter (fun s => ringDist r.did s ≤ ringDist r.did key)).getLast?).getD b)

/-! ## Stabilization round (§4.3) -/

/-- Outcome of the per-tick "get predecessor and successor list" request sent
to the successor-list head, as seen by the stabilization round. -/
inductive NetResponse where
  | ok : Option Nat → List Nat → NetResponse
  | unreachable : NetResponse
deriving Repr, DecidableEq

/-- Modelled from the spec: steps 3a–3b of the per-tick algorithm — on a
successful response `(S_pred, S_list)` from the head `s`, adopt `S_pred` via
`join` when it lies strictly between the local identifier and `s`, then merge
`S_list` into the local SuccessorList via `join` for each entry.
`dht::Stabilization` is not among the provided sources. -/
def reconcile (r : PeerRing) (s : Nat) (spred : Option Nat) (slist : List Nat) : PeerRing :=
  let r1 := match spred with
    | some p => if between r.did p s then r.join p else r
    | none => r
  slist.foldl PeerRing.join r1

/-- Modelled from the spec: one stabilization tick — skip when the
SuccessorList is empty; otherwise query the head `s`: on timeout or
unreachability apply `remove(s)`, on success reconcile. The `notify` sent to
the head afterwards mutates the remote peer, not this ring (see
`twoNodeRound`). `dht::Stabilization::stabilize` is not among the provided
sources. -/
def stabilizeTick (r : PeerRing) (resp : Nat → NetResponse) : PeerRing :=
  match r.successors with
  | [] => r
  | s :: _ =>
    match resp s with
    | NetResponse.unreachable => r.remove s
    | NetResponse.ok spred slist => reconcile r s spred slist

/-- Modelled from the spec: a stabilization round run by node `x` in a
two-node world where the only other node is `y` — `x` queries its head (when
the head is `y`, `y` answers with its predecessor and successor list), `x`
reconciles, then sends `notify(x.did)` to the (possibly updated) head, which
`y` applies when it is that head. Returns the updated pair `(x, y)`. -/
def twoNodeRound (x y : PeerRing) : PeerRing × PeerRing :=
  match x.successors with
  | [] => (x, y)
  | s :: _ =>
    if s = y.did then
      let x1 := reconcile x s y.predecessor y.successors
      match x1.successors with
      | [] => (x1, y)
      | s1 :: _ => if s1 = y.did then (x1, y.notify x.did) else (x1, y)
    else (x, y)

/-- A join or remove call, for stating invariants over call sequences. -/
inductive RingOp where
  | join : Nat → RingOp
  | remove : Nat → RingOp
deriving Repr, DecidableEq

/-- Apply one `join`/`remove` call to the ring. -/
def applyOp (r : PeerRing) : RingOp → PeerRing
  | RingOp.join c => r.join c
  | RingOp.remove p => r.remove p

/-- Apply a sequence of `join`/`remove` calls to the ring. -/
def applyOps (r : PeerRing) (ops : List RingOp) : PeerRing :=
  ops.foldl applyOp r

/-- Modelled from the spec: a freshly created `PeerRing` (as by
`PeerRing::new_with_storage(did, k, storage)` in the tests) has an empty
SuccessorList and no Predecessor. -/
def PeerRing.init (did k : Nat) : PeerRing :=
  { did := did, k := k, successors := [], predecessor := none }

/-- The SuccessorList invariant of §3: bounded by the capacity, duplicate
free, never containing the local identifier, and sorted by ascending ring
distance from the local identifier. -/
def ringInv (r : PeerRing) : Prop :=
  r.successors.length ≤ r.k ∧ r.successors.Nodup ∧ r.did ∉ r.successors ∧
    List.Sorted (ringDistLe r.did) r.successors

theorem join_did_k (r : PeerRing) (c : Nat) :
    (r.join c).did = r.did ∧ (r.join c).k = r.k := by
  unfold PeerRing.join; split <;> simp

theorem remove_did_k (r : PeerRing) (p : Nat) :
    (r.remove p).did = r.did ∧ (r.remove p).k = r.k := by
  unfold PeerRing.remove; simp

theorem join_preserves_inv (r : PeerRing) (c : Nat) (h : ringInv r) :
    ringInv (r.join c) := by
  obtain ⟨hlen, hnd, hmem, hsort⟩ := h
  unfold PeerRing.join
  split
  · exact ⟨hlen, hnd, hmem, hsort⟩
  · rename_i hcond
    push_neg at hcond
    obtain ⟨hcd, hcs⟩ := hcond
    refine ⟨?_, ?_, ?_, ?_⟩
    · simp [List.length_take]
    · have hnd' : (c :: r.successors).Nodup := List.nodup_cons.2 ⟨hcs, hnd⟩
      have hperm := List.perm_insertionSort (ringDistLe r.did) (c :: r.successors)
      exact (hperm.nodup_iff.2 hnd').sublist (List.take_sublist _ _)
    · intro hin
      have hsub := (List.take_sublist r.k
        (List.insertionSort (ringDistLe r.did) (c :: r.successors))).subset hin
      have := (List.perm_insertionSort (ringDistLe r.did) (c :: r.successors)).subset hsub
      rcases List.mem_cons.1 this with h1 | h1
      · exact hcd h1.symm
      · exact hmem h1
    · exact (List.sorted_insertionSort (ringDistLe r.did) (c :: r.successors)).sublist
        (List.take_sublist _ _)

theorem remove_preserves_inv (r : PeerRing) (p : Nat) (h : ringInv r) :
    ringInv (r.remove p) := by
  obtain ⟨hlen, hnd, hmem, hsort⟩ := h
  have hsub : List.Sublist (r.successors.erase p) r.successors :=
    List.erase_sublist p r.successors
  refine ⟨?_, ?_, ?_, ?_⟩
  · exact Nat.le_trans (by simpa using hsub.length_le) hlen
  · exact hnd.sublist hsub
  · intro hin
    exact hmem (hsub.subset hin)
  · exact hsort.sublist hsub

theorem applyOps_did_k (r : PeerRing) (ops : List RingOp) :
    (applyOps r ops).did = r.did ∧ (applyOps r ops).k = r.k := by
  induction ops generalizing r with
  | nil => exact ⟨rfl, rfl⟩
  | cons op ops ih =>
    rcases op with c | p
    · have h1 := join_did_k r c
      have h2 := ih (r.join c)
      exact ⟨h2.1.trans h1.1, h2.2.trans h1.2⟩
    · have h1 := remove_did_k r p
      have h2 := ih (r.remove p)
      exact ⟨h2.1.trans h1.1, h2.2.trans h1.2⟩

theorem applyOps_preserves_inv (r : PeerRing) (ops : List RingOp) (h : ringInv r) :
    ringInv (applyOps r ops) := by
  induction ops generalizing r with
  | nil => exact h
  | cons op ops ih =>
    rcases op with c | p
    · exact ih (r.join c) (join_preserves_inv r c h)
    · exact ih (r.remove p) (remove_preserves_inv r p h)

/-- **C1.** For every sequence of `join` and `remove` calls on a `PeerRing`
created with capacity `k`, the resulting SuccessorList has at most `k`
entries, contains no duplicate entries, never contains the local identifier,
and is sorted by ascending ring distance from the local identifier. -/
theorem successor_list_invariants (did k : Nat) (ops : List RingOp) :
    (applyOps (PeerRing.init did k) ops).successors.length ≤ k ∧
    (applyOps (PeerRing.init did k) ops).successors.Nodup ∧
    did ∉ (applyOps (PeerRing.init did k) ops).successors ∧
    List.Sorted (ringDistLe did) (applyOps (PeerRing.init did k) ops).successors := by
  have hinit : ringInv (PeerRing.init did k) := by
    refine ⟨by simp [PeerRing.init], by simp [PeerRing.init], by simp [PeerRing.init],
      by simp [PeerRing.init]⟩
  have h := applyOps_preserves_inv (PeerRing.init did k) ops hinit
  have hdk := applyOps_did_k (PeerRing.init did k) ops
  obtain ⟨h1, h2, h3, h4⟩ := h
  rw [hdk.2] at h1
  rw [hdk.1] at h3 h4
  exact ⟨h1, h2, h3, h4⟩

/-- **C2.** For a local node `a = r.did` whose first successor is `b`,
`find_successor(key)` returns `Local` if and only if `key` lies in the
half-open clockwise arc `(a, b]`, i.e. `0 < dist(a, key) ≤ dist(a, b)`. The
operation is a total function of the ring state alone: deterministic, with no
network I/O. -/
theorem find_successor_local_iff (r : PeerRing) (key b : Nat) (rest : List Nat)
    (hs : r.successors = b :: rest) (ha : r.did < ringSize) (hk : key < ringSize)
    (hb : b < ringSize) (hab : b ≠ r.did) :
    (r.find_successor key = RingLookup.Local ↔
      (0 < ringDist r.did key ∧ ringDist r.did key ≤ ringDist r.did b)) := by
  simp only [PeerRing.find_successor, hs]
  by_cases hcond : between r.did key b ∨ key = b
  · rw [if_pos hcond]
    simp only [true_iff]
    rcases hcond with hbet | hkey
    · exact ⟨hbet.1, Nat.le_of_lt hbet.2⟩
    · subst hkey
      exact ⟨ringDist_pos_of_ne ha hk (fun h => hab h.symm), Nat.le_refl _⟩
  · rw [if_neg hcond]
    push_neg at hcond
    obtain ⟨hnb, hne⟩ := hcond
    constructor
    · intro h
      exact absurd h (by simp)
    · rintro ⟨hpos, hle⟩
      rcases Nat.lt_or_ge (ringDist r.did key) (ringDist r.did b) with hlt | hge
      · exact absurd ⟨hpos, hlt⟩ hnb
      · exact absurd (ringDist_inj ha hk hb (Nat.le_antisymm hle hge)) hne

/-- Witness for **C2**: with local identifier 10, first successor 20 and key
15, the key lies in the arc `(10, 20]` and `find_successor` answers `Local`. -/
theorem find_successor_local_iff_witness :
    ({ did := 10, k := 3, successors := [20], predecessor := none } :
        PeerRing).find_successor 15 = RingLookup.Local :=
  (find_successor_local_iff _ 15 20 [] rfl (by norm_num [ringSize])
      (by norm_num [ringSize]) (by norm_num [ringSize]) (by norm_num)).2
    ⟨by norm_num [ringDist, ringSize], by norm_num [ringDist, ringSize]⟩

/-- **C3.** `notify(x)` replaces the Predecessor — setting it to `x` — if and
only if the Predecessor is currently unset or `x` is strictly closer in the
counter-clockwise (predecessor) direction than the current Predecessor (its
clockwise distance to the local identifier is strictly smaller); in every
other case the whole ring state, Predecessor included, is left unchanged. -/
theorem notify_replaces_iff (r : PeerRing) (x : Nat) :
    ((r.predecessor = none ∨
        (∃ p, r.predecessor = some p ∧ ringDist x r.did < ringDist p r.did)) →
      (r.notify x).predecessor = some x) ∧
    (¬(r.predecessor = none ∨
        (∃ p, r.predecessor = some p ∧ ringDist x r.did < ringDist p r.did)) →
      r.notify x = r) := by
  constructor
  · rintro (hnone | ⟨p, hp, hlt⟩)
    · simp [PeerRing.notify, hnone]
    · simp [PeerRing.notify, hp, hlt]
  · intro hno
    push_neg at hno
    obtain ⟨hne, hall⟩ := hno
    match hpred : r.predecessor with
    | none => exact absurd hpred hne
    | some p =>
      have := hall p hpred
      simp [PeerRing.notify, hpred, this]

/-- Witness for **C3**: with an unset Predecessor, `notify 7` installs 7. -/
theorem notify_replaces_iff_witness :
    (({ did := 10, k := 3, successors := [20], predecessor := none } :
        PeerRing).notify 7).predecessor = some 7 :=
  (notify_replaces_iff _ 7).1 (Or.inl rfl)

/-- **C4.** `notify` is idempotent: for every identifier `x` and every ring
state, after one call of `notify(x)` the Predecessor has its final value — a
second and any further call of `notify(x)` leaves the ring, and in particular
the Predecessor, unchanged. -/
theorem notify_idempotent (r : PeerRing) (x : Nat) :
    (r.notify x).notify x = r.notify x := by
  unfold PeerRing.notify
  match hpred : r.predecessor with
  | none => simp
  | some p =>
    by_cases h : ringDist x r.did < ringDist p r.did
    · simp [h]
    · simp [hpred, h]

/-- **C5.** When the successor-list head `S` is reported unreachable during a
stabilization round, the round applies `remove(S)`: with list `[p1, p2, p3]`
and `p1` unreachable, one round yields `[p2, p3]` (head evicted, order
preserved); the Predecessor is cleared exactly when it equals `p1`; and a
tick on an empty successor list changes no state. -/
theorem stabilization_evicts_unreachable_head (r : PeerRing) (resp : Nat → NetResponse)
    (p1 p2 p3 : Nat) (hs : r.successors = [p1, p2, p3])
    (hresp : resp p1 = NetResponse.unreachable) :
    (stabilizeTick r resp).successors = [p2, p3] ∧
    (r.predecessor = some p1 → (stabilizeTick r resp).predecessor = none) ∧
    (r.predecessor ≠ some p1 → (stabilizeTick r resp).predecessor = r.predecessor) ∧
    (∀ (r2 : PeerRing) (resp2 : Nat → NetResponse), r2.successors = [] →
      stabilizeTick r2 resp2 = r2) := by
  refine ⟨?_, ?_, ?_, ?_⟩
  · simp [stabilizeTick, hs, hresp, PeerRing.remove]
  · intro hp
    simp [stabilizeTick, hs, hresp, PeerRing.remove, hp]
  · intro hp
    simp [stabilizeTick, hs, hresp, PeerRing.remove, hp]
  · intro r2 resp2 h2
    simp [stabilizeTick, h2]

/-- Witness for **C5**: a node with successor list `[1, 2, 3]` and
predecessor 1 whose head is unreachable ends the round with list `[2, 3]`. -/
theorem stabilization_evicts_unreachable_head_witness :
    (stabilizeTick
        { did := 0, k := 3, successors := [1, 2, 3], predecessor := some 1 }
        (fun _ => NetResponse.unreachable)).successors = [2, 3] :=
  (stabilization_evicts_unreachable_head _ _ 1 2 3 rfl rfl).1

/-- **C6.** Two manually connected nodes A (larger identifier `ad`) and B
(smaller identifier `bd`), each holding the other in its successor list:
after one stabilization round on A, A's successor list contains B and B's
successor list contains A; after the subsequent round on B, A's predecessor
is B and B's predecessor is A. -/
theorem two_node_convergence (ad bd k : Nat) (_hlt : bd < ad) :
    let A : PeerRing := { did := ad, k := k, successors := [bd], predecessor := none }
    let B : PeerRing := { did := bd, k := k, successors := [ad], predecessor := none }
    let r1 := twoNodeRound A B
    let r2 := twoNodeRound r1.2 r1.1
    bd ∈ r1.1.successors ∧ ad ∈ r1.2.successors ∧
    r2.2.predecessor = some bd ∧ r2.1.predecessor = some ad := by
  simp [twoNodeRound, reconcile, PeerRing.join, PeerRing.notify]

/-- Witness for **C6**: concrete identifiers A = 5, B = 3, capacity 3. -/
theorem two_node_convergence_witness :
    (twoNodeRound
        (twoNodeRound ⟨5, 3, [3], none⟩ ⟨3, 3, [5], none⟩).2
        (twoNodeRound ⟨5, 3, [3], none⟩ ⟨3, 3, [5], none⟩).1).2.predecessor = some 3 :=
  (two_node_convergence 5 3 3 (by norm_num)).2.2.1

/-- **C7.** For in-range identifiers `a` and `b`, `distance(a, b)` equals
`(b - a) mod 2^160` computed in the integers: it is non-negative (a `Nat`),
wraps modulo the size of the 160-bit identifier space, and is a total
function with no failure modes. -/
theorem ringDist_spec (a b : Nat) (ha : a < ringSize) (hb : b < ringSize) :
    ((ringDist a b : Int) = ((b : Int) - (a : Int)) % ((2 : Int) ^ 160) ∧
      ringDist a b < ringSize) := by
  have hR : ((ringSize : Nat) : Int) = (2 : Int) ^ 160 := by
    simp only [ringSize]
    push_cast
  refine ⟨?_, ringDist_lt_ringSize a b⟩
  rw [ringDist_eq_of_lt ha hb]
  split
  · rename_i h
    have h1 : (((b - a : Nat)) : Int) = (b : Int) - (a : Int) := by omega
    rw [h1]
    refine (Int.emod_eq_of_lt (by omega) ?_).symm
    rw [← hR]
    omega
  · rename_i h
    have h1 : (((b + ringSize - a : Nat)) : Int) =
        (b : Int) - (a : Int) + ((ringSize : Nat) : Int) := by omega
    rw [h1, hR]
    have h2 : ((b : Int) - (a : Int) + (2 : Int) ^ 160) =
        (b : Int) - (a : Int) + (2 : Int) ^ 160 * 1 := by ring
    calc (b : Int) - (a : Int) + (2 : Int) ^ 160
        = ((b : Int) - (a : Int) + (2 : Int) ^ 160) % ((2 : Int) ^ 160) := by
          refine (Int.emod_eq_of_lt ?_ ?_).symm
          · rw [← hR]; omega
          · rw [← hR]; omega
      _ = ((b : Int) - (a : Int)) % ((2 : Int) ^ 160) := by
          rw [h2]
          exact Int.add_mul_emod_self_left _ _ _

/-- Witness for **C7**: at `a = 3`, `b = 1` the distance is `2^160 - 2`,
matching the integer remainder. -/
theorem ringDist_spec_witness :
    ((ringDist 3 1 : Int) = ((1 : Int) - (3 : Int)) % ((2 : Int) ^ 160) ∧
      ringDist 3 1 < ringSize) :=
  ringDist_spec 3 1 (by norm_num [ringSize]) (by norm_num [ringSize])

/-! ## Storage backend selection (`rings-core/src/storage/mod.rs`) -/

/-- The storage implementations declared by `storage/mod.rs`: `MemStorage`
(from `mod memory`), and `IDBStorage` / `KvStorage` (from
`pub mod persistence`, submodules `idb` and `kv`). -/
inductive StorageImpl where
  | MemStorage : StorageImpl
  | IDBStorage : StorageImpl
  | KvStorage : StorageImpl
deriving Repr, DecidableEq, Fintype

/-- The submodule of `storage/mod.rs` each implementation lives in:
`memory` holds the ephemeral in-memory backend, `persistence` the
persistent backends (on-disk KV for native, browser IndexedDB for wasm). -/
inductive StorageModule where
  | memory : StorageModule
  | persistence : StorageModule
deriving Repr, DecidableEq, Fintype

def storageModuleOf : StorageImpl → StorageModule
  | StorageImpl.MemStorage => StorageModule.memory
  | StorageImpl.IDBStorage => StorageModule.persistence
  | StorageImpl.KvStorage => StorageModule.persistence

/-- The build configurations distinguished by the `#[cfg(feature = ...)]`
attributes in `storage/mod.rs`. -/
inductive CargoFeature where
  | wasm : CargoFeature
  | default : CargoFeature
deriving Repr, DecidableEq, Fintype

/-- The `Storage` type alias of `storage/mod.rs`: under `feature = "wasm"` it
is `persistence::idb::IDBStorage`, under `feature = "default"` it is
`persistence::kv::KvStorage`. -/
def Storage : CargoFeature → StorageImpl
  | CargoFeature.wasm => StorageImpl.IDBStorage
  | CargoFeature.default => StorageImpl.KvStorage

/-- The implementations exported by `storage/mod.rs` (`pub use`). -/
def declaredStorageImpls : List StorageImpl :=
  [StorageImpl.MemStorage, StorageImpl.IDBStorage, StorageImpl.KvStorage]

/-- Counterexample to **C8** as stated: the configuration choice in
`storage/mod.rs` selects `IDBStorage` (wasm) or `KvStorage` (default) as the
`Storage` alias — both from the `persistence` module — so no configuration
selects the ephemeral in-memory implementation; the claimed
"ephemeral in-memory vs. persistent on-disk, selected by configuration"
choice does not exist in the code. -/
theorem storage_selection_counterexample :
    Storage CargoFeature.wasm = StorageImpl.IDBStorage ∧
    Storage CargoFeature.default = StorageImpl.KvStorage ∧
    ¬ ∃ f, storageModuleOf (Storage f) = StorageModule.memory := by
  decide

/-- **C8 (amended).** The storage module declares an ephemeral in-memory
implementation (`MemStorage`) alongside persistent implementations; the
`Storage` alias a node uses is selected by build configuration, but the
selection is between the two persistent backends (`IDBStorage` under the
wasm feature, `KvStorage` under the default feature): the in-memory
implementation is exported yet never the configured `Storage` alias. -/
theorem storage_backend_selection :
    StorageImpl.MemStorage ∈ declaredStorageImpls ∧
    storageModuleOf StorageImpl.MemStorage = StorageModule.memory ∧
    (∀ f, storageModuleOf (Storage f) = StorageModule.persistence) ∧
    Storage CargoFeature.wasm = StorageImpl.IDBStorage ∧
    Storage CargoFeature.default = StorageImpl.KvStorage := by
  decide

/-! ## Snark circuit input helpers (`crates/snark/src/circuit.rs`) -/

/-- `TyInput<F> = Vec<(String, Vec<F>)>`, the named witness-input list. -/
def TyInput (F : Type) : Type := List (String × List F)

/-- `flat_input` from `circuit.rs`: flatten a witness input to its values
(`input.into_iter().flat_map(|(_, v)| v).collect()`). -/
def flat_input {F : Type} (input : TyInput F) : List F :=
  (input.map (fun p => p.2)).flatten

/-- `input_len` from `circuit.rs`: the length of the flattened input
(`input.iter().flat_map(|(_, v)| v).collect::<Vec<&F>>().len()`). -/
def input_len {F : Type} (input : TyInput F) : Nat :=
  ((input.map (fun p => p.2)).flatten).length

/-- **C9.** For every witness input list, `input_len(input)` equals the
number of field elements in `flat_input(input)`: flattening a named-input
list into a plain value vector preserves the total element count. -/
theorem input_len_eq_flat_input_length {F : Type} (input : TyInput F) :
    input_len input = (flat_input input).length := rfl

/-! ## TCP reverse-proxy handler (`node/src/backend/service/tcp_server.rs`) -/

/-- `TcpServiceConfig` from `tcp_server.rs`; the `SocketAddr` is modelled
opaquely as a number. -/
structure TcpServiceConfig where
  name : String
  register_service : Option String
  addr : Nat
deriving Repr, DecidableEq

/-- A `Tunnel` as held in the `tunnels` map; its streams and tasks are
external I/O state and are not represented. -/
structure Tunnel where
  tid : Nat
deriving Repr, DecidableEq

/-- `TunnelMessage` from the proxy module, as received after
`bincode::deserialize`. `TunnelDefeat` reasons are modelled as numbers and
packet bodies as byte lists. -/
inductive TunnelMessage where
  | TcpDial : Nat → String → TunnelMessage
  | TcpClose : Nat → Nat → TunnelMessage
  | TcpPackage : Nat → List Nat → TunnelMessage
deriving Repr, DecidableEq

/-- The `node::error::Error` variants reachable from
`TcpServer::handle_message`. -/
inductive NodeError where
  | DecodeError : NodeError
  | InvalidService : NodeError
  | SendMessage : NodeError
  | TunnelError : Nat → NodeError
  | TunnelNotFound : NodeError
deriving Repr, DecidableEq

/-- `str::eq_ignore_ascii_case`, used for the service-name lookup. -/
def eqIgnoreAsciiCase (a b : String) : Bool :=
  a.toLower == b.toLower

/-- `DashMap::get` on the `tunnels` map, modelled as an association list. -/
def tunnelGet (m : List (Nat × Tunnel)) (tid : Nat) : Option Tunnel :=
  (m.find? (fun kv => kv.1 == tid)).map (fun kv => kv.2)

/-- `DashMap::insert` (replacing any entry with the same key). -/
def tunnelInsert (m : List (Nat × Tunnel)) (tid : Nat) (t : Tunnel) :
    List (Nat × Tunnel) :=
  (tid, t) :: m.filter (fun kv => kv.1 != tid)

/-- `DashMap::remove`. -/
def tunnelRemove (m : List (Nat × Tunnel)) (tid : Nat) : List (Nat × Tunnel) :=
  m.filter (fun kv => kv.1 != tid)

/-- The fields of `TcpServer` relevant to `handle_message`: the configured
hidden services and the tunnels map (the swarm handle only carries I/O). -/
structure TcpServerState where
  services : List TcpServiceConfig
  tunnels : List (Nat × Tunnel)
deriving Repr, DecidableEq

/-- `TcpServer::handle_message` from `tcp_server.rs`, after the
`bincode::deserialize` step, with the two external effects supplied as
oracles: `connect addr` is the outcome of `tcp_connect_with_timeout`
(`Except.error e` being a `TunnelDefeat`), and `reportOk` tells whether
`send_report_message` succeeds. `Tunnel::listen` and `Tunnel::send` only
start or perform I/O and do not alter the map beyond what is shown. The
result pairs the tunnels map after the call with the returned
`Result<Vec<MessageHandlerEvent>>`. -/
def TcpServer.handle_message (st : TcpServerState)
    (connect : Nat → Except Nat Unit) (reportOk : Bool) (msg : TunnelMessage) :
    List (Nat × Tunnel) × Except NodeError (List Unit) :=
  match msg with
  | TunnelMessage.TcpDial tid service =>
    match st.services.find? (fun x => eqIgnoreAsciiCase x.name service) with
    | none => (st.tunnels, Except.error NodeError.InvalidService)
    | some svc =>
      match connect svc.addr with
      | Except.error e =>
        if reportOk then (st.tunnels, Except.error (NodeError.TunnelError e))
        else (st.tunnels, Except.error NodeError.SendMessage)
      | Except.ok _ => (tunnelInsert st.tunnels tid { tid := tid }, Except.ok [])
  | TunnelMessage.TcpClose tid _ => (tunnelRemove st.tunnels tid, Except.ok [])
  | TunnelMessage.TcpPackage tid _ =>
    match tunnelGet st.tunnels tid with
    | none => (st.tunnels, Except.error NodeError.TunnelNotFound)
    | some _ => (st.tunnels, Except.ok [])

/-- **C10.** When `TcpServer::handle_message` receives a
`TunnelMessage::TcpPackage` whose tunnel id is not present in the tunnels
map, it returns the `TunnelNotFound` error and the tunnels map is left
unchanged: no entry is added or removed on this error path. -/
theorem tcp_package_unknown_tunnel (st : TcpServerState)
    (connect : Nat → Except Nat Unit) (reportOk : Bool) (tid : Nat)
    (body : List Nat) (h : tunnelGet st.tunnels tid = none) :
    TcpServer.handle_message st connect reportOk
        (TunnelMessage.TcpPackage tid body) =
      (st.tunnels, Except.error NodeError.TunnelNotFound) := by
  simp [TcpServer.handle_message, h]

/-- Witness for **C10**: a server with an empty tunnels map receiving a
package for tunnel 7. -/
theorem tcp_package_unknown_tunnel_witness :
    TcpServer.handle_message { services := [], tunnels := [] }
        (fun _ => Except.ok ()) true (TunnelMessage.TcpPackage 7 [1, 2]) =
      ([], Except.error NodeError.TunnelNotFound) :=
  tcp_package_unknown_tunnel { services := [], tunnels := [] }
    (fun _ => Except.ok ()) true 7 [1, 2] rfl
